import Mathlib

/-!
Shallow embedding of the spectra compositing and timeline-editing core
(`src/compositing.rs`, `src/edit.rs`).

Conventions of the embedding:
* GPU objects that the core only references (textures, shader programs,
  render callbacks) are opaque and identified by a natural-number tag;
  the core never inspects them, it only threads them through.
* `f64`/`f32` time values and colors are modelled by `ℚ`: the code only
  compares them with `≤` and adds/subtracts them, and every constant used
  by the claims is exactly representable, so the ordered-field fragment
  used is faithful.
* The `Vec` of framebuffers is a `List` of sizes; `Vec::push`/`Vec::pop`
  on the free list are modelled by consing/uncons at the head, which is
  the same LIFO stack discipline.
* Panics (`assert!`) are modelled by `Option`, `none` meaning the panic.
* GPU side effects are recorded as a trace of `Event`s, in the order the
  Rust code issues them.
-/

namespace Spectra

/-- RGBA color (`color::RGBA`), four float components modelled by `ℚ`. -/
structure RGBA where
  r : ℚ
  g : ℚ
  b : ℚ
  a : ℚ
deriving DecidableEq, Repr

/-- Blending equation (`luminance::blending::Equation`, re-exported by
`compositing.rs`). -/
inductive Equation where
  | additive
  | subtract
  | reverseSubtract
  | min
  | max
deriving DecidableEq, Repr

/-- Blending factor (`luminance::blending::Factor`, re-exported by
`compositing.rs`). -/
inductive Factor where
  | one
  | zero
  | srcColor
  | srcColorComplement
  | destColor
  | destColorComplement
  | srcAlpha
  | srcAlphaComplement
  | dstAlpha
  | dstAlphaComplement
  | srcAlphaSaturate
deriving DecidableEq, Repr

/-- A blending state: equation plus source and destination factors, as
passed to `rdr_gate.new` in `Compositor::composite`. -/
abbrev Blend := Equation × Factor × Factor

/-- Compositing node (`compositing.rs`, `enum Node`).  Opaque borrowed
resources (`RenderLayer` callback, `TextureLayer`, `&Program`) are
identified by a `ℕ` tag. -/
inductive Node where
  /-- `Node::Render(RenderLayer)`: an opaque render callback. -/
  | render (layer : ℕ)
  /-- `Node::Texture(TextureLayer, Option<[f32; 2]>)`. -/
  | texture (tex : ℕ) (scale : Option (ℚ × ℚ))
  /-- `Node::Color(RGBA)`. -/
  | color (c : RGBA)
  /-- `Node::Composite(left, right, clear_color, eq, src_fct, dst_fct)`. -/
  | composite (left right : Node) (clear : RGBA) (eq : Equation) (srcF dstF : Factor)
  /-- `Node::FullscreenEffect(&Program)`. -/
  | fullscreenEffect (prog : ℕ)
deriving DecidableEq, Repr

/-- `Node::compose_with`. -/
def Node.compose_with (self rhs : Node) (clearColor : RGBA) (eq : Equation)
    (srcFct dstFct : Factor) : Node :=
  Node.composite self rhs clearColor eq srcFct dstFct

/-- `Node::over`: `rhs.compose_with(self, RGBA::new(0,0,0,0), Additive, SrcAlpha,
SrcAlphaComplement)`. -/
def Node.over (self rhs : Node) : Node :=
  rhs.compose_with self ⟨0, 0, 0, 0⟩ Equation.additive Factor.srcAlpha Factor.srcAlphaComplement

/-- `impl Add for Node`. -/
def Node.add (self rhs : Node) : Node :=
  self.compose_with rhs ⟨0, 0, 0, 0⟩ Equation.additive Factor.one Factor.one

/-- `impl Sub for Node`. -/
def Node.sub (self rhs : Node) : Node :=
  self.compose_with rhs ⟨0, 0, 0, 0⟩ Equation.subtract Factor.one Factor.one

/-- `impl Mul for Node`. -/
def Node.mul (self rhs : Node) : Node :=
  self.compose_with rhs ⟨1, 1, 1, 1⟩ Equation.additive Factor.zero Factor.srcColor

/-- One allocated off-screen framebuffer of the pool: `Framebuffer::new((w, h), 0)`.
Only its size is observable to the core, the pixel contents live on the GPU. -/
structure Framebuffer where
  width : ℕ
  height : ℕ
deriving DecidableEq, Repr

/-- The mutable state of `Compositor` that the evaluator touches: the
output resolution `w × h`, the growable `framebuffers` vector (modelled by
the list of allocated sizes) and the `free_framebuffers` free list
(head of the list = top of the `Vec` stack). -/
structure Compositor where
  w : ℕ
  h : ℕ
  framebuffers : List Framebuffer
  free_framebuffers : List ℕ
deriving DecidableEq, Repr

/-- A GPU-visible action, recorded in the order `compositing.rs` issues it. -/
inductive Event where
  /-- a framebuffer index was pulled (`pull_framebuffer`). -/
  | acquire (i : ℕ)
  /-- a framebuffer index was returned to the free list (`dispose_framebuffer`). -/
  | release (i : ℕ)
  /-- the `RenderLayer` callback was invoked on the target (`Compositor::render`). -/
  | renderCb (target layer : ℕ)
  /-- a pipeline cleared the target to the color (`Pipeline::new(fb, color, ...)`). -/
  | clear (target : ℕ) (c : RGBA)
  /-- a full-screen quad through the compose program, sampling framebuffer
  `srcFb` on texture unit `unit`, with optional blending. -/
  | drawCompose (target unit srcFb : ℕ) (blend : Option Blend)
  /-- a full-screen quad through the texture program (`Compositor::texturize`). -/
  | drawTexture (target tex : ℕ) (scale : ℚ × ℚ)
  /-- a full-screen quad through a user program (`Compositor::fullscreen_effect`). -/
  | drawEffect (target prog : ℕ)
  /-- the final unblended blit of framebuffer `srcFb` to the default
  framebuffer (`Compositor::display`). -/
  | screen (srcFb : ℕ)
deriving DecidableEq, Repr

/-- `Compositor::pull_framebuffer`: pop the free list if possible, otherwise
allocate a framebuffer sized `(w, h)`, append it and return the new index. -/
def pull_framebuffer (c : Compositor) : ℕ × Compositor :=
  match c.free_framebuffers with
  | i :: rest => (i, { c with free_framebuffers := rest })
  | [] =>
      (c.framebuffers.length,
       { c with framebuffers := c.framebuffers ++ [⟨c.w, c.h⟩] })

/-- `Compositor::dispose_framebuffer`: push the index on the free list;
never deallocates. -/
def dispose_framebuffer (c : Compositor) (framebuffer_index : ℕ) : Compositor :=
  { c with free_framebuffers := framebuffer_index :: c.free_framebuffers }

/-- `Compositor::treat_node` together with the leaf handlers `render`,
`texturize`, `colorize`, `composite` and `fullscreen_effect`: evaluate a
node, returning the index of the framebuffer holding the result, the
updated pool state and the trace of GPU actions. -/
def treat_node (c : Compositor) : Node → ℕ × Compositor × List Event
  | Node.render layer =>
      let p := pull_framebuffer c
      (p.1, p.2, [Event.acquire p.1, Event.renderCb p.1 layer])
  | Node.texture tex scale =>
      let p := pull_framebuffer c
      (p.1, p.2,
       [Event.acquire p.1, Event.clear p.1 ⟨0, 0, 0, 1⟩,
        Event.drawTexture p.1 tex (scale.getD (1, 1))])
  | Node.color col =>
      let p := pull_framebuffer c
      (p.1, p.2, [Event.acquire p.1, Event.clear p.1 col])
  | Node.composite l r clearColor eq srcF dstF =>
      let resL := treat_node c l
      let resR := treat_node resL.2.1 r
      let p := pull_framebuffer resR.2.1
      (p.1,
       dispose_framebuffer (dispose_framebuffer p.2 resL.1) resR.1,
       resL.2.2 ++ resR.2.2 ++
        [Event.acquire p.1, Event.clear p.1 clearColor,
         Event.drawCompose p.1 0 resL.1 (some (eq, srcF, dstF)),
         Event.drawCompose p.1 1 resR.1 (some (eq, srcF, dstF)),
         Event.release resL.1, Event.release resR.1])
  | Node.fullscreenEffect prog =>
      let p := pull_framebuffer c
      (p.1, p.2,
       [Event.acquire p.1, Event.clear p.1 ⟨0, 0, 0, 1⟩, Event.drawEffect p.1 prog])

/-- `Compositor::display`: evaluate the root, blit the resulting
framebuffer to the screen, then dispose it. -/
def display (c : Compositor) (root : Node) : Compositor × List Event :=
  let res := treat_node c root
  (dispose_framebuffer res.2.1 res.1,
   res.2.2 ++ [Event.screen res.1, Event.release res.1])

/-- Pool well-formedness: the free list holds no duplicates and only
indices of allocated framebuffers.  `Compositor::new` establishes it
(both vectors empty) and the evaluator preserves it. -/
def Compositor.wf (c : Compositor) : Prop :=
  c.free_framebuffers.Nodup ∧ ∀ i ∈ c.free_framebuffers, i < c.framebuffers.length

/-- The in-use index set of the pool: allocated indices not on the free list. -/
def Compositor.inUse (c : Compositor) : Finset ℕ :=
  (Finset.range c.framebuffers.length).filter (fun i => i ∉ c.free_framebuffers)

instance (c : Compositor) : Decidable c.wf := by
  unfold Compositor.wf; infer_instance

/-- Count of `acquire i` events in a trace. -/
def acqCount (tr : List Event) (i : ℕ) : ℕ :=
  tr.countP (fun e => decide (e = Event.acquire i))

/-- Count of `release i` events in a trace. -/
def relCount (tr : List Event) (i : ℕ) : ℕ :=
  tr.countP (fun e => decide (e = Event.release i))

/-- Time (`edit.rs`: `pub type Time = f64`).  Modelled by `ℚ`: the code
only compares times and adds/subtracts them, and every constant in the
claims is exactly representable. -/
abbrev Time := ℚ

/-- `Clip`: a boxed generator from global time to a compositing node. -/
structure Clip where
  gen_node : Time → Node

/-- `Cut`: slices a clip at `[in_time, out_time]`, instantiated on the
global timeline at `inst_time`. -/
structure Cut where
  in_time : Time
  out_time : Time
  inst_time : Time
  clip : Clip

/-- `Cut::new` including its `assert!(in_time <= out_time)`; `none`
models the panic. -/
def Cut.new (in_time out_time inst_time : Time) (clip : Clip) : Option Cut :=
  if in_time ≤ out_time then some ⟨in_time, out_time, inst_time, clip⟩ else none

/-- `Cut::dur`. -/
def Cut.dur (c : Cut) : Time :=
  c.out_time - c.in_time

/-- `Track`: an ordered collection of cuts. -/
structure Track where
  cuts : List Cut

/-- `Overlap`: a fold of simultaneously active nodes, active during
`[inst_time, inst_time + dur]`. -/
structure Overlap where
  inst_time : Time
  dur : Time
  fold : List Node → Node

/-- `Timeline`: tracks plus overlaps. -/
structure Timeline where
  tracks : List Track
  overlaps : List Overlap

/-- `Played`: the outcome of `Timeline::play`. -/
inductive Played where
  | Resolved (n : Node)
  | NoOverlap
  | Inactive
deriving DecidableEq, Repr

/-- The populate loop of `Timeline::play`: one generated node per cut
whose window `[inst_time, inst_time + dur]` contains `t` (inclusive both
ends), in track iteration order then cut iteration order. -/
def Timeline.active_nodes (tl : Timeline) (t : Time) : List Node :=
  tl.tracks.flatMap fun track =>
    (track.cuts.filter fun cut =>
        decide (cut.inst_time ≤ t) && decide (t ≤ cut.inst_time + cut.dur)).map
      fun cut => cut.clip.gen_node t

/-- `Timeline::find_overlap`. -/
def Timeline.find_overlap (tl : Timeline) (t : Time) : Option Overlap :=
  tl.overlaps.find? fun x => decide (x.inst_time ≤ t) && decide (t ≤ x.inst_time + x.dur)

/-- `Timeline::play`. -/
def Timeline.play (tl : Timeline) (t : Time) : Played :=
  match tl.active_nodes t with
  | [] => Played.Inactive
  | [n] => Played.Resolved n
  | ns =>
      match tl.find_overlap t with
      | some overlap => Played.Resolved (overlap.fold ns)
      | none => Played.NoOverlap

/-- `CutManifest` (`edit.rs`). -/
structure CutManifest where
  in_time : Time
  out_time : Time
  inst_time : Time
  clip : String
deriving DecidableEq, Repr

/-- `TrackManifest`. -/
structure TrackManifest where
  cuts : List CutManifest
deriving DecidableEq, Repr

/-- `TimelineManifest`. -/
structure TimelineManifest where
  tracks : List TrackManifest
deriving DecidableEq, Repr

/-- The inner loop of `Timeline::from_manifest` over one track's cut
manifests: a resolved cut is built with `Cut::new` (whose panic is `none`
and propagates), an unresolved clip name is skipped and its `warn!`
diagnostic recorded (modelled by the offending clip name). -/
def buildTrack (mapping : String → Option Clip) :
    List CutManifest → Option (List Cut × List String)
  | [] => some ([], [])
  | cm :: rest =>
      match mapping cm.clip with
      | some clip =>
          match Cut.new cm.in_time cm.out_time cm.inst_time clip with
          | some cut => (buildTrack mapping rest).map fun p => (cut :: p.1, p.2)
          | none => none
      | none => (buildTrack mapping rest).map fun p => (p.1, cm.clip :: p.2)

/-- The outer loop of `Timeline::from_manifest` over the track manifests. -/
def buildTracks (mapping : String → Option Clip) :
    List TrackManifest → Option (List Track × List String)
  | [] => some ([], [])
  | tm :: rest =>
      match buildTrack mapping tm.cuts with
      | none => none
      | some p =>
          match buildTracks mapping rest with
          | none => none
          | some q => some (Track.mk p.1 :: q.1, p.2 ++ q.2)

/-- `Timeline::from_manifest`: resolve every cut manifest against the
name-to-clip mapping; `none` models the panic coming from `Cut::new`.
On success it returns the timeline (tracks in manifest order, no
overlaps) together with the emitted diagnostics. -/
def Timeline.from_manifest (manifest : TimelineManifest)
    (mapping : String → Option Clip) : Option (Timeline × List String) :=
  (buildTracks mapping manifest.tracks).map fun p => (⟨p.1, []⟩, p.2)

lemma mem_inUse {c : Compositor} {i : ℕ} :
    i ∈ c.inUse ↔ i < c.framebuffers.length ∧ i ∉ c.free_framebuffers := by
  simp [Compositor.inUse]

lemma pull_spec (c : Compositor) (h : c.wf) :
    (pull_framebuffer c).2.wf ∧
    c.framebuffers.length ≤ (pull_framebuffer c).2.framebuffers.length ∧
    (pull_framebuffer c).1 ∉ c.inUse ∧
    (pull_framebuffer c).2.inUse = insert (pull_framebuffer c).1 c.inUse ∧
    (pull_framebuffer c).2.w = c.w ∧ (pull_framebuffer c).2.h = c.h := by
  obtain ⟨hnd, hbd⟩ := h
  rcases hfree : c.free_framebuffers with _ | ⟨i, rest⟩
  · have hp : pull_framebuffer c =
        (c.framebuffers.length, { c with framebuffers := c.framebuffers ++ [⟨c.w, c.h⟩] }) := by
      simp only [pull_framebuffer, hfree]
    rw [hp]
    refine ⟨⟨by simp [hfree], ?_⟩, by simp, ?_, ?_, rfl, rfl⟩
    · intro j hj
      simp only [hfree] at hj
      simp at hj
    · simp [mem_inUse]
    · apply Finset.ext
      intro j
      simp [Compositor.inUse, hfree, Nat.lt_succ_iff_lt_or_eq, or_comm]
  · have hi : i < c.framebuffers.length := hbd i (by rw [hfree]; exact List.mem_cons_self i rest)
    have hirest : i ∉ rest := by
      rw [hfree] at hnd; exact (List.nodup_cons.mp hnd).1
    have hp : pull_framebuffer c = (i, { c with free_framebuffers := rest }) := by
      simp only [pull_framebuffer, hfree]
    rw [hp]
    refine ⟨⟨?_, ?_⟩, le_refl _, ?_, ?_, rfl, rfl⟩
    · rw [hfree] at hnd; exact (List.nodup_cons.mp hnd).2
    · intro j hj
      exact hbd j (by rw [hfree]; exact List.mem_cons_of_mem i hj)
    · simp [mem_inUse, hfree]
    · apply Finset.ext
      intro j
      simp only [Compositor.inUse, Finset.mem_filter, Finset.mem_range, Finset.mem_insert,
        hfree, List.mem_cons]
      by_cases hji : j = i
      · subst hji; simp [hi, hirest]
      · simp [hji]

lemma dispose_spec (c : Compositor) (i : ℕ) (h : c.wf) (hi : i ∈ c.inUse) :
    (dispose_framebuffer c i).wf ∧
    (dispose_framebuffer c i).inUse = c.inUse.erase i ∧
    (dispose_framebuffer c i).framebuffers = c.framebuffers ∧
    (dispose_framebuffer c i).w = c.w ∧ (dispose_framebuffer c i).h = c.h := by
  obtain ⟨hnd, hbd⟩ := h
  obtain ⟨hilt, hifree⟩ := mem_inUse.mp hi
  refine ⟨⟨?_, ?_⟩, ?_, rfl, rfl, rfl⟩
  · exact List.nodup_cons.mpr ⟨hifree, hnd⟩
  · intro j hj
    rcases List.mem_cons.mp hj with hj | hj
    · exact hj ▸ hilt
    · exact hbd j hj
  · apply Finset.ext
    intro j
    simp only [Compositor.inUse, dispose_framebuffer, Finset.mem_filter, Finset.mem_range,
      Finset.mem_erase, List.mem_cons]
    tauto

/-- Main evaluator invariant: starting from a well-formed pool, `treat_node`
keeps the pool well-formed, never shrinks the framebuffer vector, keeps the
resolution, and its net effect on the in-use set is to add exactly the
returned index, which was free (or unallocated) beforehand. -/
lemma treat_node_spec (n : Node) :
    ∀ c : Compositor, c.wf →
      (treat_node c n).2.1.wf ∧
      c.framebuffers.length ≤ (treat_node c n).2.1.framebuffers.length ∧
      (treat_node c n).1 ∉ c.inUse ∧
      (treat_node c n).2.1.inUse = insert (treat_node c n).1 c.inUse ∧
      (treat_node c n).2.1.w = c.w ∧ (treat_node c n).2.1.h = c.h := by
  induction n with
  | render layer =>
      intro c h
      simpa only [treat_node] using pull_spec c h
  | texture tex scale =>
      intro c h
      simpa only [treat_node] using pull_spec c h
  | color col =>
      intro c h
      simpa only [treat_node] using pull_spec c h
  | fullscreenEffect prog =>
      intro c h
      simpa only [treat_node] using pull_spec c h
  | composite l r clearColor eq srcF dstF ihl ihr =>
      intro c h
      obtain ⟨h1wf, h1len, h1notin, h1ins, h1w, h1h⟩ := ihl c h
      set resL := treat_node c l with hresL
      set li := resL.1
      set c1 := resL.2.1
      obtain ⟨h2wf, h2len, h2notin, h2ins, h2w, h2h⟩ := ihr c1 h1wf
      set resR := treat_node c1 r with hresR
      set ri := resR.1
      set c2 := resR.2.1
      obtain ⟨h3wf, h3len, h3notin, h3ins, h3w, h3h⟩ := pull_spec c2 h2wf
      set p := pull_framebuffer c2 with hp
      set fi := p.1
      set c3 := p.2
      have hsub1 : c.inUse ⊆ c1.inUse := by
        rw [h1ins]; exact Finset.subset_insert _ _
      have hsub2 : c1.inUse ⊆ c2.inUse := by
        rw [h2ins]; exact Finset.subset_insert _ _
      have hli1 : li ∈ c1.inUse := by rw [h1ins]; exact Finset.mem_insert_self _ _
      have hri2 : ri ∈ c2.inUse := by rw [h2ins]; exact Finset.mem_insert_self _ _
      have hli2 : li ∈ c2.inUse := hsub2 hli1
      have hne_ri_li : ri ≠ li := fun he => h2notin (he ▸ hli1)
      have hne_fi_li : fi ≠ li := fun he => h3notin (he ▸ hli2)
      have hne_fi_ri : fi ≠ ri := fun he => h3notin (he ▸ hri2)
      have hli3 : li ∈ c3.inUse := by rw [h3ins]; exact Finset.mem_insert_of_mem hli2
      obtain ⟨h4wf, h4ins, h4fb, h4w, h4h⟩ := dispose_spec c3 li h3wf hli3
      set c4 := dispose_framebuffer c3 li with hc4
      have hri4 : ri ∈ c4.inUse := by
        rw [h4ins, Finset.mem_erase]
        rw [h3ins]
        exact ⟨hne_ri_li, Finset.mem_insert_of_mem hri2⟩
      obtain ⟨h5wf, h5ins, h5fb, h5w, h5h⟩ := dispose_spec c4 ri h4wf hri4
      set c5 := dispose_framebuffer c4 ri with hc5
      have hfi_notin_c : fi ∉ c.inUse := fun hm => h3notin (hsub2 (hsub1 hm))
      have key : c5.inUse = insert fi c.inUse := by
        rw [h5ins, h4ins, h3ins, h2ins, h1ins]
        apply Finset.ext
        intro j
        simp only [Finset.mem_erase, Finset.mem_insert]
        constructor
        · rintro ⟨hjri, hjli, hj | hj | hj | hj⟩
          · exact Or.inl hj
          · exact absurd hj hjri
          · exact absurd hj hjli
          · exact Or.inr hj
        · rintro (hj | hj)
          · subst hj; exact ⟨hne_fi_ri, hne_fi_li, Or.inl rfl⟩
          · refine ⟨fun he => h2notin (he ▸ hsub1 hj), fun he => h1notin (he ▸ hj),
              Or.inr (Or.inr (Or.inr hj))⟩
      have hgoal :
          (treat_node c (Node.composite l r clearColor eq srcF dstF)).1 = fi ∧
          (treat_node c (Node.composite l r clearColor eq srcF dstF)).2.1 = c5 := by
        constructor <;> simp only [treat_node]
      rw [hgoal.1, hgoal.2]
      refine ⟨h5wf, ?_, hfi_notin_c, key, ?_, ?_⟩
      · calc c.framebuffers.length ≤ c1.framebuffers.length := h1len
          _ ≤ c2.framebuffers.length := h2len
          _ ≤ c3.framebuffers.length := h3len
          _ = c4.framebuffers.length := by rw [h4fb]
          _ = c5.framebuffers.length := by rw [h5fb]
      · rw [h5w, h4w, h3w, h2w, h1w]
      · rw [h5h, h4h, h3h, h2h, h1h]

/-- Per-trace accounting: in the trace of `treat_node`, every index has as
many `acquire` events as `release` events, except the returned root index
which has exactly one unmatched `acquire`. -/
lemma treat_node_count (n : Node) :
    ∀ (c : Compositor) (j : ℕ),
      acqCount (treat_node c n).2.2 j =
        relCount (treat_node c n).2.2 j + (if (treat_node c n).1 = j then 1 else 0) := by
  induction n with
  | render layer =>
      intro c j
      simp [treat_node, acqCount, relCount, List.countP_cons]
  | texture tex scale =>
      intro c j
      simp [treat_node, acqCount, relCount, List.countP_cons]
  | color col =>
      intro c j
      simp [treat_node, acqCount, relCount, List.countP_cons]
  | fullscreenEffect prog =>
      intro c j
      simp [treat_node, acqCount, relCount, List.countP_cons]
  | composite l r clearColor eq srcF dstF ihl ihr =>
      intro c j
      have hl := ihl c j
      have hr := ihr (treat_node c l).2.1 j
      simp only [acqCount, relCount] at hl hr
      simp only [treat_node, acqCount, relCount, List.countP_append, List.countP_cons,
        List.countP_nil, decide_eq_true_eq]
      simp
      rw [hl, hr]
      split_ifs <;> omega

/-- In a composite evaluation from a well-formed pool: both child indices
pass the bounds assertions of `Compositor::composite`, and the freshly
pulled destination index is distinct from both child indices. -/
lemma composite_children_facts (l r : Node) (c : Compositor) (h : c.wf) :
    (treat_node c l).1 < (treat_node (treat_node c l).2.1 r).2.1.framebuffers.length ∧
    (treat_node (treat_node c l).2.1 r).1 <
      (treat_node (treat_node c l).2.1 r).2.1.framebuffers.length ∧
    (pull_framebuffer (treat_node (treat_node c l).2.1 r).2.1).1 ≠ (treat_node c l).1 ∧
    (pull_framebuffer (treat_node (treat_node c l).2.1 r).2.1).1 ≠
      (treat_node (treat_node c l).2.1 r).1 ∧
    (treat_node c l).1 ≠ (treat_node (treat_node c l).2.1 r).1 := by
  obtain ⟨h1wf, h1len, h1notin, h1ins, -, -⟩ := treat_node_spec l c h
  obtain ⟨h2wf, h2len, h2notin, h2ins, -, -⟩ :=
    treat_node_spec r (treat_node c l).2.1 h1wf
  obtain ⟨-, -, h3notin, -, -, -⟩ :=
    pull_spec (treat_node (treat_node c l).2.1 r).2.1 h2wf
  have hli1 : (treat_node c l).1 ∈ (treat_node c l).2.1.inUse := by
    rw [h1ins]; exact Finset.mem_insert_self _ _
  have hli2 : (treat_node c l).1 ∈ (treat_node (treat_node c l).2.1 r).2.1.inUse := by
    rw [h2ins]; exact Finset.mem_insert_of_mem hli1
  have hri2 : (treat_node (treat_node c l).2.1 r).1 ∈
      (treat_node (treat_node c l).2.1 r).2.1.inUse := by
    rw [h2ins]; exact Finset.mem_insert_self _ _
  refine ⟨(mem_inUse.mp hli2).1, (mem_inUse.mp hri2).1, ?_, ?_, ?_⟩
  · exact fun he => h3notin (he ▸ hli2)
  · exact fun he => h3notin (he ▸ hri2)
  · exact fun he => h2notin (he ▸ hli1)

/-- The nested populate loop flattened: the active nodes are the images at
`t` of exactly the cuts, across all tracks, whose window contains `t`. -/
lemma active_nodes_flatten (tl : Timeline) (t : Time) :
    tl.active_nodes t =
      ((tl.tracks.flatMap Track.cuts).filter fun cut =>
          decide (cut.inst_time ≤ t) && decide (t ≤ cut.inst_time + cut.dur)).map
        fun cut => cut.clip.gen_node t := by
  obtain ⟨tracks, overlaps⟩ := tl
  induction tracks with
  | nil => rfl
  | cons track rest ih =>
      simp only [Timeline.active_nodes, List.flatMap_cons, List.filter_append,
        List.map_append] at ih ⊢
      rw [ih]

/-- `List.find?` returns the first match: the list splits around the hit,
with the predicate false on everything before it. -/
lemma find?_eq_some_split {α : Type} (p : α → Bool) (l : List α) (a : α)
    (h : l.find? p = some a) :
    ∃ l1 l2, l = l1 ++ a :: l2 ∧ (∀ x ∈ l1, p x = false) ∧ p a = true := by
  induction l with
  | nil => simp at h
  | cons x xs ih =>
      by_cases hx : p x
      · rw [List.find?_cons_of_pos _ hx] at h
        obtain rfl : x = a := by injection h
        exact ⟨[], xs, rfl, by simp, hx⟩
      · rw [List.find?_cons_of_neg _ (by simpa using hx)] at h
        obtain ⟨l1, l2, hsplit, h1, h2⟩ := ih h
        refine ⟨x :: l1, l2, by rw [hsplit]; rfl, ?_, h2⟩
        intro y hy
        rcases List.mem_cons.mp hy with rfl | hy
        · simpa using hx
        · exact h1 y hy

/-- `buildTrack` when every resolvable cut manifest is time-ordered:
resolved cuts are kept in order, unresolved names become diagnostics. -/
lemma buildTrack_eq (mapping : String → Option Clip) (cuts : List CutManifest)
    (h : ∀ cm ∈ cuts, (mapping cm.clip).isSome → cm.in_time ≤ cm.out_time) :
    buildTrack mapping cuts = some
      (cuts.filterMap fun cm =>
         (mapping cm.clip).map fun cl => ⟨cm.in_time, cm.out_time, cm.inst_time, cl⟩,
       cuts.filterMap fun cm =>
         if (mapping cm.clip).isSome then none else some cm.clip) := by
  induction cuts with
  | nil => rfl
  | cons cm rest ih =>
      have hrest := ih fun c hc => h c (List.mem_cons_of_mem _ hc)
      rcases hm : mapping cm.clip with _ | cl
      · simp [buildTrack, hm, hrest, List.filterMap_cons]
      · have hle : cm.in_time ≤ cm.out_time := h cm (List.mem_cons_self _ _) (by simp [hm])
        simp [buildTrack, hm, Cut.new, hle, hrest, List.filterMap_cons]

/-- `buildTracks` under the same well-formedness hypothesis. -/
lemma buildTracks_eq (mapping : String → Option Clip) (tms : List TrackManifest)
    (h : ∀ tm ∈ tms, ∀ cm ∈ tm.cuts, (mapping cm.clip).isSome → cm.in_time ≤ cm.out_time) :
    buildTracks mapping tms = some
      (tms.map fun tm => Track.mk (tm.cuts.filterMap fun cm =>
         (mapping cm.clip).map fun cl => ⟨cm.in_time, cm.out_time, cm.inst_time, cl⟩),
       tms.flatMap fun tm => tm.cuts.filterMap fun cm =>
         if (mapping cm.clip).isSome then none else some cm.clip) := by
  induction tms with
  | nil => rfl
  | cons tm rest ih =>
      have htm := buildTrack_eq mapping tm.cuts (h tm (List.mem_cons_self _ _))
      have hrest := ih fun tm2 h2 => h tm2 (List.mem_cons_of_mem _ h2)
      simp [buildTracks, htm, hrest]

/-- If some cut manifest resolves to a clip but is not time-ordered,
`buildTrack` panics. -/
lemma buildTrack_none_of_bad (mapping : String → Option Clip) (cuts : List CutManifest)
    (h : ∃ cm ∈ cuts, (mapping cm.clip).isSome ∧ cm.out_time < cm.in_time) :
    buildTrack mapping cuts = none := by
  induction cuts with
  | nil => simp at h
  | cons cm rest ih =>
      obtain ⟨c, hc, hsome, hlt⟩ := h
      rcases List.mem_cons.mp hc with rfl | hc
      · obtain ⟨cl, hm⟩ := Option.isSome_iff_exists.mp hsome
        simp [buildTrack, hm, Cut.new, not_le.mpr hlt]
      · have hrest := ih ⟨c, hc, hsome, hlt⟩
        rcases hm : mapping cm.clip with _ | cl
        · simp [buildTrack, hm, hrest]
        · rcases hnew : Cut.new cm.in_time cm.out_time cm.inst_time cl with _ | cut
          · simp [buildTrack, hm, hnew]
          · simp [buildTrack, hm, hnew, hrest]

/-- The panic propagates through `buildTracks`. -/
lemma buildTracks_none_of_bad (mapping : String → Option Clip) (tms : List TrackManifest)
    (h : ∃ tm ∈ tms, buildTrack mapping tm.cuts = none) :
    buildTracks mapping tms = none := by
  induction tms with
  | nil => simp at h
  | cons tm rest ih =>
      obtain ⟨tm2, htm2, hnone⟩ := h
      rcases List.mem_cons.mp htm2 with rfl | htm2
      · simp [buildTracks, hnone]
      · rcases hb : buildTrack mapping tm.cuts with _ | p
        · simp [buildTracks, hb]
        · have hrest := ih ⟨tm2, htm2, hnone⟩
          simp [buildTracks, hb, hrest]

end Spectra

namespace Spectra

/-- Claim C5: each derived operator builds exactly the `Composite` of the
spec table; in particular `over` swaps the operands, putting the
background `B` on the left and the foreground `A` on the right. -/
theorem node_operators_build_spec_composites (A B : Node) :
    Node.add A B = Node.composite A B ⟨0, 0, 0, 0⟩ Equation.additive Factor.one Factor.one ∧
    Node.sub A B = Node.composite A B ⟨0, 0, 0, 0⟩ Equation.subtract Factor.one Factor.one ∧
    Node.mul A B = Node.composite A B ⟨1, 1, 1, 1⟩ Equation.additive Factor.zero Factor.srcColor ∧
    Node.over A B = Node.composite B A ⟨0, 0, 0, 0⟩ Equation.additive Factor.srcAlpha
      Factor.srcAlphaComplement := by
  exact ⟨rfl, rfl, rfl, rfl⟩

/-- Claim C1: `Compositor::display` leaves the pool's in-use index set
identical before and after the call, preserves pool well-formedness (so no
index is double-released onto the free list), never shrinks the
framebuffer vector, and its trace releases every index exactly as many
times as it acquires it. -/
theorem display_preserves_in_use_set (root : Node) (c : Compositor) (h : c.wf) :
    (display c root).1.wf ∧
    (display c root).1.inUse = c.inUse ∧
    c.framebuffers.length ≤ (display c root).1.framebuffers.length ∧
    ∀ j, acqCount (display c root).2 j = relCount (display c root).2 j := by
  obtain ⟨hwf, hlen, hnotin, hins, -, -⟩ := treat_node_spec root c h
  have hmem : (treat_node c root).1 ∈ (treat_node c root).2.1.inUse := by
    rw [hins]; exact Finset.mem_insert_self _ _
  obtain ⟨dwf, dins, dfb, -, -⟩ := dispose_spec (treat_node c root).2.1 (treat_node c root).1 hwf hmem
  refine ⟨dwf, ?_, ?_, ?_⟩
  · rw [hins] at dins
    rw [Finset.erase_insert hnotin] at dins
    exact dins
  · exact hlen
  · intro j
    have hc := treat_node_count root c j
    simp only [acqCount, relCount] at hc ⊢
    simp only [display, List.countP_append, List.countP_cons, List.countP_nil,
      decide_eq_true_eq]
    simp
    rw [hc]

/-- Claim C1 witness: a concrete composite tree displayed from the empty
pool leaves the in-use set (empty) unchanged. -/
theorem display_preserves_in_use_set_witness :
    (display ⟨800, 600, [], []⟩
        (Node.add (Node.color ⟨1, 0, 0, 1⟩) (Node.color ⟨0, 0, 1, 1⟩))).1.inUse =
      (⟨800, 600, [], []⟩ : Compositor).inUse :=
  (display_preserves_in_use_set
      (Node.add (Node.color ⟨1, 0, 0, 1⟩) (Node.color ⟨0, 0, 1, 1⟩))
      ⟨800, 600, [], []⟩ (by decide)).2.1

/-- Claim C2: evaluating a `Composite` node first fully evaluates `left`
(from the incoming pool state), then `right` (from the state `left` left
behind), then pulls a fresh destination index, clears it to the node's
clear color, draws the left image on texture unit 0 and then the right
image on texture unit 1 (both with the node's blend state active), and
finally releases the left and right indices; the destination index is
distinct from both child indices. -/
theorem composite_left_before_right_distinct_target (l r : Node) (clearColor : RGBA)
    (eq : Equation) (srcF dstF : Factor) (c : Compositor) (h : c.wf) :
    treat_node c (Node.composite l r clearColor eq srcF dstF) =
      ((pull_framebuffer (treat_node (treat_node c l).2.1 r).2.1).1,
       dispose_framebuffer
         (dispose_framebuffer (pull_framebuffer (treat_node (treat_node c l).2.1 r).2.1).2
           (treat_node c l).1)
         (treat_node (treat_node c l).2.1 r).1,
       (treat_node c l).2.2 ++ (treat_node (treat_node c l).2.1 r).2.2 ++
        [Event.acquire (pull_framebuffer (treat_node (treat_node c l).2.1 r).2.1).1,
         Event.clear (pull_framebuffer (treat_node (treat_node c l).2.1 r).2.1).1 clearColor,
         Event.drawCompose (pull_framebuffer (treat_node (treat_node c l).2.1 r).2.1).1 0
           (treat_node c l).1 (some (eq, srcF, dstF)),
         Event.drawCompose (pull_framebuffer (treat_node (treat_node c l).2.1 r).2.1).1 1
           (treat_node (treat_node c l).2.1 r).1 (some (eq, srcF, dstF)),
         Event.release (treat_node c l).1,
         Event.release (treat_node (treat_node c l).2.1 r).1]) ∧
    (pull_framebuffer (treat_node (treat_node c l).2.1 r).2.1).1 ≠ (treat_node c l).1 ∧
    (pull_framebuffer (treat_node (treat_node c l).2.1 r).2.1).1 ≠
      (treat_node (treat_node c l).2.1 r).1 ∧
    (treat_node c l).1 ≠ (treat_node (treat_node c l).2.1 r).1 := by
  obtain ⟨-, -, h3, h4, h5⟩ := composite_children_facts l r c h
  exact ⟨rfl, h3, h4, h5⟩

/-- Claim C2 witness: for a concrete 2-leaf composite from the empty pool
the destination index differs from the left child's index. -/
theorem composite_left_before_right_distinct_target_witness :
    (pull_framebuffer
        (treat_node (treat_node ⟨800, 600, [], []⟩ (Node.color ⟨1, 0, 0, 1⟩)).2.1
          (Node.color ⟨0, 1, 0, 1⟩)).2.1).1 ≠
      (treat_node ⟨800, 600, [], []⟩ (Node.color ⟨1, 0, 0, 1⟩)).1 :=
  (composite_left_before_right_distinct_target (Node.color ⟨1, 0, 0, 1⟩)
      (Node.color ⟨0, 1, 0, 1⟩) ⟨0, 0, 0, 0⟩ Equation.additive Factor.one Factor.one
      ⟨800, 600, [], []⟩ (by decide)).2.1

/-- Claim C6 counterexample: on a concrete composite of two color leaves,
the draw of the left child's image (texture unit 0) carries the node's
blend state — there is no unblended left draw anywhere in the trace,
refuting the claim that the left child is drawn with no blend state. -/
theorem composite_left_draw_blended_cex :
    (treat_node ⟨800, 600, [], []⟩
        (Node.composite (Node.color ⟨1, 0, 0, 1⟩) (Node.color ⟨0, 0, 1, 1⟩) ⟨0, 0, 0, 0⟩
          Equation.additive Factor.one Factor.one)).2.2 =
      [Event.acquire 0, Event.clear 0 ⟨1, 0, 0, 1⟩,
       Event.acquire 1, Event.clear 1 ⟨0, 0, 1, 1⟩,
       Event.acquire 2, Event.clear 2 ⟨0, 0, 0, 0⟩,
       Event.drawCompose 2 0 0 (some (Equation.additive, Factor.one, Factor.one)),
       Event.drawCompose 2 1 1 (some (Equation.additive, Factor.one, Factor.one)),
       Event.release 0, Event.release 1] ∧
    Event.drawCompose 2 0 0 none ∉
      (treat_node ⟨800, 600, [], []⟩
        (Node.composite (Node.color ⟨1, 0, 0, 1⟩) (Node.color ⟨0, 0, 1, 1⟩) ⟨0, 0, 0, 0⟩
          Equation.additive Factor.one Factor.one)).2.2 := by
  exact ⟨by decide, by decide⟩

/-- Claim C6 amended: in the evaluation of every `Composite` node, the
blend state `(eq, srcF, dstF)` is installed once on the render gate and
both the left draw (unit 0) and the right draw (unit 1) are performed with
it active — the left draw is not unblended. -/
theorem composite_draws_share_blend_state (l r : Node) (clearColor : RGBA)
    (eq : Equation) (srcF dstF : Factor) (c : Compositor) :
    ((treat_node c (Node.composite l r clearColor eq srcF dstF)).2.2).drop
        ((treat_node c l).2.2.length + (treat_node (treat_node c l).2.1 r).2.2.length) =
      [Event.acquire (pull_framebuffer (treat_node (treat_node c l).2.1 r).2.1).1,
       Event.clear (pull_framebuffer (treat_node (treat_node c l).2.1 r).2.1).1 clearColor,
       Event.drawCompose (pull_framebuffer (treat_node (treat_node c l).2.1 r).2.1).1 0
         (treat_node c l).1 (some (eq, srcF, dstF)),
       Event.drawCompose (pull_framebuffer (treat_node (treat_node c l).2.1 r).2.1).1 1
         (treat_node (treat_node c l).2.1 r).1 (some (eq, srcF, dstF)),
       Event.release (treat_node c l).1,
       Event.release (treat_node (treat_node c l).2.1 r).1] := by
  simp only [treat_node]
  rw [← List.length_append, List.drop_left]

/-- Claim C7: `pull_framebuffer` pops the free list when non-empty; only
on an empty free list does it allocate a `(w, h)`-sized framebuffer,
append it and return the previous length as the new index;
`dispose_framebuffer` only pushes onto the free list; and a pull right
after a dispose of `i` returns `i` and restores the state. -/
theorem pool_acquire_release_contract :
    (∀ (c : Compositor) (i : ℕ) (rest : List ℕ), c.free_framebuffers = i :: rest →
       pull_framebuffer c = (i, { c with free_framebuffers := rest })) ∧
    (∀ c : Compositor, c.free_framebuffers = [] →
       pull_framebuffer c =
         (c.framebuffers.length,
          { c with framebuffers := c.framebuffers ++ [⟨c.w, c.h⟩] })) ∧
    (∀ (c : Compositor) (i : ℕ),
       dispose_framebuffer c i = { c with free_framebuffers := i :: c.free_framebuffers }) ∧
    (∀ (c : Compositor) (i : ℕ), pull_framebuffer (dispose_framebuffer c i) = (i, c)) := by
  refine ⟨?_, ?_, fun c i => rfl, fun c i => rfl⟩
  · intro c i rest hf
    simp only [pull_framebuffer, hf]
  · intro c hf
    simp only [pull_framebuffer, hf]

/-- Claim C7 witness: with index 0 on the free list, pulling returns 0 and
pops it without allocating. -/
theorem pool_acquire_release_contract_witness :
    pull_framebuffer ⟨800, 600, [⟨800, 600⟩], [0]⟩ = (0, ⟨800, 600, [⟨800, 600⟩], []⟩) :=
  pool_acquire_release_contract.1 ⟨800, 600, [⟨800, 600⟩], [0]⟩ 0 [] rfl

/-- Claim C9: under pool well-formedness (which `Compositor::new`
establishes and evaluation preserves), every free-list index and every
index returned by `pull_framebuffer` is below the framebuffer-vector
length, the vector never shrinks under `treat_node`, and consequently
the two bounds assertions at the start of `Compositor::composite` hold
for both child indices. -/
theorem bounds_assertions_always_hold :
    (∀ c : Compositor, c.wf → ∀ i ∈ c.free_framebuffers, i < c.framebuffers.length) ∧
    (∀ c : Compositor, c.wf →
       (pull_framebuffer c).1 < (pull_framebuffer c).2.framebuffers.length) ∧
    (∀ (c : Compositor) (n : Node), c.wf →
       c.framebuffers.length ≤ (treat_node c n).2.1.framebuffers.length) ∧
    (∀ (c : Compositor) (l r : Node), c.wf →
       (treat_node c l).1 < (treat_node (treat_node c l).2.1 r).2.1.framebuffers.length ∧
       (treat_node (treat_node c l).2.1 r).1 <
         (treat_node (treat_node c l).2.1 r).2.1.framebuffers.length) := by
  refine ⟨fun c h => h.2, ?_, ?_, ?_⟩
  · intro c h
    obtain ⟨-, -, -, hins, -, -⟩ := pull_spec c h
    have hm : (pull_framebuffer c).1 ∈ (pull_framebuffer c).2.inUse := by
      rw [hins]; exact Finset.mem_insert_self _ _
    exact (mem_inUse.mp hm).1
  · intro c n h
    exact (treat_node_spec n c h).2.1
  · intro c l r h
    obtain ⟨h1, h2, -, -, -⟩ := composite_children_facts l r c h
    exact ⟨h1, h2⟩

/-- Claim C9 witness: the assertion bounds hold at a concrete composite
evaluation from the empty pool. -/
theorem bounds_assertions_always_hold_witness :
    (treat_node ⟨800, 600, [], []⟩ (Node.color ⟨1, 0, 0, 1⟩)).1 <
      (treat_node (treat_node ⟨800, 600, [], []⟩ (Node.color ⟨1, 0, 0, 1⟩)).2.1
        (Node.color ⟨0, 1, 0, 1⟩)).2.1.framebuffers.length :=
  (bounds_assertions_always_hold.2.2.2 ⟨800, 600, [], []⟩ (Node.color ⟨1, 0, 0, 1⟩)
      (Node.color ⟨0, 1, 0, 1⟩) (by decide)).1

/-- Claim C3: `Timeline::play` collects exactly the cuts whose window
`[inst_time, inst_time + (out_time - in_time)]` contains `t` (inclusive
both ends), invokes each collected cut's clip generator at the global
time `t`, returns `Inactive` for zero active cuts and `Resolved` with the
single node for exactly one; and for the concrete one-track one-cut
scenario `(in=0, out=2, inst=5)` over a constant-red clip, resolving 4.9
gives `Inactive`, 5.0 and 7.0 give `Resolved(Color(1,0,0,1))`, and 7.1
gives `Inactive`. -/
theorem timeline_play_zero_or_one_active :
    (∀ (tl : Timeline) (t : Time), tl.active_nodes t = [] → tl.play t = Played.Inactive) ∧
    (∀ (tl : Timeline) (t : Time) (n : Node),
       tl.active_nodes t = [n] → tl.play t = Played.Resolved n) ∧
    (∀ (tl : Timeline) (t : Time),
       tl.active_nodes t =
         ((tl.tracks.flatMap Track.cuts).filter fun cut =>
             decide (cut.inst_time ≤ t) && decide (t ≤ cut.inst_time + cut.dur)).map
           fun cut => cut.clip.gen_node t) ∧
    Timeline.play
        (Timeline.mk [Track.mk [Cut.mk 0 2 5 (Clip.mk fun _ => Node.color ⟨1, 0, 0, 1⟩)]] [])
        (49 / 10) = Played.Inactive ∧
    Timeline.play
        (Timeline.mk [Track.mk [Cut.mk 0 2 5 (Clip.mk fun _ => Node.color ⟨1, 0, 0, 1⟩)]] [])
        5 = Played.Resolved (Node.color ⟨1, 0, 0, 1⟩) ∧
    Timeline.play
        (Timeline.mk [Track.mk [Cut.mk 0 2 5 (Clip.mk fun _ => Node.color ⟨1, 0, 0, 1⟩)]] [])
        7 = Played.Resolved (Node.color ⟨1, 0, 0, 1⟩) ∧
    Timeline.play
        (Timeline.mk [Track.mk [Cut.mk 0 2 5 (Clip.mk fun _ => Node.color ⟨1, 0, 0, 1⟩)]] [])
        (71 / 10) = Played.Inactive := by
  refine ⟨?_, ?_, active_nodes_flatten, ?_, ?_, ?_, ?_⟩
  · intro tl t h
    simp [Timeline.play, h]
  · intro tl t n h
    simp [Timeline.play, h]
  · norm_num [Timeline.play, Timeline.active_nodes, Cut.dur, List.filter_cons]
  · norm_num [Timeline.play, Timeline.active_nodes, Cut.dur, List.filter_cons]
  · norm_num [Timeline.play, Timeline.active_nodes, Cut.dur, List.filter_cons]
  · norm_num [Timeline.play, Timeline.active_nodes, Cut.dur, List.filter_cons]

/-- Claim C3 witness: the zero-active branch applied to the empty timeline. -/
theorem timeline_play_zero_or_one_active_witness :
    Timeline.play (Timeline.mk [] []) 0 = Played.Inactive :=
  timeline_play_zero_or_one_active.1 (Timeline.mk [] []) 0 rfl

/-- Claim C4: with two or more simultaneously active cuts,
`Timeline::play` searches the overlaps in declaration order for the first
whose window `[inst_time, inst_time + dur]` contains `t` inclusively;
on a hit it returns `Resolved` of that overlap's fold applied to the full
active-node list (track order, then cut order), and with no hit it
returns `NoOverlap`. -/
theorem timeline_play_overlap_resolution (tl : Timeline) (t : Time)
    (h2 : 2 ≤ (tl.active_nodes t).length) :
    (tl.find_overlap t = none → tl.play t = Played.NoOverlap) ∧
    ∀ o, tl.find_overlap t = some o →
      tl.play t = Played.Resolved (o.fold (tl.active_nodes t)) ∧
      (o.inst_time ≤ t ∧ t ≤ o.inst_time + o.dur) ∧
      ∃ l1 l2, tl.overlaps = l1 ++ o :: l2 ∧
        ∀ o2 ∈ l1, ¬(o2.inst_time ≤ t ∧ t ≤ o2.inst_time + o2.dur) := by
  rcases hns : tl.active_nodes t with _ | ⟨a, _ | ⟨b, rest⟩⟩
  · rw [hns] at h2; simp at h2
  · rw [hns] at h2; simp at h2
  · constructor
    · intro hnone
      simp only [Timeline.play, hns, hnone]
    · intro o ho
      refine ⟨?_, ?_, ?_⟩
      · simp only [Timeline.play, hns, ho]
      · have hp := List.find?_some (by simpa [Timeline.find_overlap] using ho)
        simpa using hp
      · obtain ⟨l1, l2, hsplit, h1, -⟩ :=
          find?_eq_some_split _ tl.overlaps o (by simpa [Timeline.find_overlap] using ho)
        refine ⟨l1, l2, hsplit, ?_⟩
        intro o2 ho2
        have hfalse := h1 o2 ho2
        simp only [Bool.and_eq_false_iff, decide_eq_false_iff_not] at hfalse
        rintro ⟨hx, hy⟩
        rcases hfalse with hf | hf
        · exact hf hx
        · exact hf hy

/-- Claim C4 witness: the spec's overlap scenario — two cuts active at
`t = 10`, once with an overlap covering `[9, 11]` folding to green
(Resolved), once with no overlaps (NoOverlap). -/
theorem timeline_play_overlap_resolution_witness :
    Timeline.play
        (Timeline.mk
          [Track.mk [Cut.mk 0 2 9 (Clip.mk fun _ => Node.color ⟨1, 0, 0, 1⟩)],
           Track.mk [Cut.mk 0 2 9 (Clip.mk fun _ => Node.color ⟨0, 0, 1, 1⟩)]]
          [Overlap.mk 9 2 fun _ => Node.color ⟨0, 1, 0, 1⟩]) 10 =
      Played.Resolved (Node.color ⟨0, 1, 0, 1⟩) ∧
    Timeline.play
        (Timeline.mk
          [Track.mk [Cut.mk 0 2 9 (Clip.mk fun _ => Node.color ⟨1, 0, 0, 1⟩)],
           Track.mk [Cut.mk 0 2 9 (Clip.mk fun _ => Node.color ⟨0, 0, 1, 1⟩)]]
          []) 10 = Played.NoOverlap := by
  constructor
  · exact ((timeline_play_overlap_resolution _ 10
      (by norm_num [Timeline.active_nodes, Cut.dur, List.filter_cons])).2
      (Overlap.mk 9 2 fun _ => Node.color ⟨0, 1, 0, 1⟩)
      (by norm_num [Timeline.find_overlap, List.find?_cons])).1
  · exact (timeline_play_overlap_resolution _ 10
      (by norm_num [Timeline.active_nodes, Cut.dur, List.filter_cons])).1 rfl

/-- Claim C8 (amended): provided every cut manifest whose clip name
resolves is time-ordered (`in_time ≤ out_time`), `Timeline::from_manifest`
succeeds; each cut naming a missing clip is omitted from its track with a
diagnostic, and all other cuts are kept in order. -/
theorem from_manifest_drops_missing_clips (m : TimelineManifest)
    (mapping : String → Option Clip)
    (h : ∀ tm ∈ m.tracks, ∀ cm ∈ tm.cuts,
      (mapping cm.clip).isSome → cm.in_time ≤ cm.out_time) :
    Timeline.from_manifest m mapping = some
      (Timeline.mk
        (m.tracks.map fun tm => Track.mk (tm.cuts.filterMap fun cm =>
          (mapping cm.clip).map fun cl =>
            Cut.mk cm.in_time cm.out_time cm.inst_time cl)) [],
       m.tracks.flatMap fun tm => tm.cuts.filterMap fun cm =>
         if (mapping cm.clip).isSome then none else some cm.clip) := by
  simp [Timeline.from_manifest, buildTracks_eq mapping m.tracks h]

/-- Claim C8 counterexample: a manifest with a cut naming the absent clip
`"missing"` and a second, resolvable cut with `out_time < in_time` makes
`from_manifest` panic (modelled by `none`) instead of succeeding — so the
claim does not hold for every manifest. -/
theorem from_manifest_missing_clip_panic_cex :
    Timeline.from_manifest
        (TimelineManifest.mk [TrackManifest.mk
          [CutManifest.mk 0 1 0 "missing", CutManifest.mk 1 0 0 "c"]])
        (fun s => if s = "c" then some (Clip.mk fun _ => Node.color ⟨0, 0, 0, 1⟩) else none) =
      none := by
  rfl

/-- Claim C8 witness: a manifest with one missing-clip cut and one good
cut loads successfully, dropping the missing one with its diagnostic. -/
theorem from_manifest_drops_missing_clips_witness :
    Timeline.from_manifest
        (TimelineManifest.mk [TrackManifest.mk
          [CutManifest.mk 0 1 0 "missing", CutManifest.mk 0 2 5 "c"]])
        (fun s => if s = "c" then some (Clip.mk fun _ => Node.color ⟨0, 0, 0, 1⟩) else none) =
      some
        (Timeline.mk
          [Track.mk [Cut.mk 0 2 5 (Clip.mk fun _ => Node.color ⟨0, 0, 0, 1⟩)]] [],
         ["missing"]) :=
  from_manifest_drops_missing_clips _ _ (by decide)

/-- Claim C10: `Cut::new` panics exactly when `in_time > out_time`, and
consequently `Timeline::from_manifest` panics on any manifest containing
a resolvable cut with `out_time < in_time` instead of dropping it. -/
theorem cut_new_panics_iff_misordered :
    (∀ (i o inst : Time) (cl : Clip), (Cut.new i o inst cl).isSome ↔ i ≤ o) ∧
    ∀ (m : TimelineManifest) (mapping : String → Option Clip),
      (∃ tm ∈ m.tracks, ∃ cm ∈ tm.cuts,
        (mapping cm.clip).isSome ∧ cm.out_time < cm.in_time) →
      Timeline.from_manifest m mapping = none := by
  constructor
  · intro i o inst cl
    by_cases h : i ≤ o <;> simp [Cut.new, h]
  · rintro m mapping ⟨tm, htm, cm, hcm, hsome, hlt⟩
    have h1 := buildTrack_none_of_bad mapping tm.cuts ⟨cm, hcm, hsome, hlt⟩
    have h2 := buildTracks_none_of_bad mapping m.tracks ⟨tm, htm, h1⟩
    simp [Timeline.from_manifest, h2]

/-- Claim C10 witness: a concrete manifest whose single resolvable cut has
`out_time < in_time` makes `from_manifest` panic. -/
theorem cut_new_panics_iff_misordered_witness :
    Timeline.from_manifest
        (TimelineManifest.mk [TrackManifest.mk [CutManifest.mk 1 0 0 "c"]])
        (fun s => if s = "c" then some (Clip.mk fun _ => Node.color ⟨0, 0, 0, 1⟩) else none) =
      none :=
  cut_new_panics_iff_misordered.2 _ _
    ⟨TrackManifest.mk [CutManifest.mk 1 0 0 "c"], by decide,
     CutManifest.mk 1 0 0 "c", by decide, by decide, by decide⟩

end Spectra
